import Mathlib

/-!
Verification development for the AI-Job-Monitoring-Agent repository.

This file gives a shallow embedding of the ingestion / consolidation pipeline
(`processor.py`, `scrapers/base.py`, `scrapers/naukri.py`, `scrapers/linkedin.py`,
`config.py`) and proves or refutes the frozen claims about it.

Modelling conventions:
* Python `str` values are modelled by Lean `String`; `str.strip()` / `str.lower()`
  are modelled on ASCII data (the repository only manipulates ASCII field values
  apart from currency signs, which both sides leave unchanged).
* Python job dicts always carry the eight standard keys created by
  `BaseScraper.make_job_record`, so they are modelled by the structure `Job`.
* `fuzzywuzzy.fuzz.ratio` (version 0.18.0, pure-python path) is embedded in the
  `SeqM` namespace: the `s1 == s2` shortcut of `utils.check_for_equal`, and
  otherwise `difflib.SequenceMatcher(None, s1, s2).ratio()` (with the autojunk
  heuristic for strings of length >= 200) scaled by 100 and rounded half-to-even
  (`int(round(...))`); for the integer sizes that occur here the binary float
  computed by Python coincides with the exact rational, so rounding is exact.
* Bounded-depth recursions carry an explicit fuel argument so that every
  definition is executable by `decide`; each call site passes a fuel that
  provably dominates the recursion depth, so the out-of-fuel branch is dead.
-/

set_option maxRecDepth 40000

/-! ## Python string primitives -/

/-- ASCII whitespace recognised by Python `str.strip()` / regex. -/
def isPySpace (c : Char) : Bool :=
  c == ' ' || c == '\t' || c == '\n' || c == '\r' || c == '\x0b' || c == '\x0c'

/-- Python `str.strip()` on a character list. -/
def pyStripL (s : List Char) : List Char :=
  ((s.dropWhile isPySpace).reverse.dropWhile isPySpace).reverse

/-- Python `str.strip()`. -/
def pyStrip (s : String) : String := String.mk (pyStripL s.data)

/-- Python `str.lower()` (ASCII model). -/
def pyLower (s : String) : String := String.mk (s.data.map Char.toLower)

/-- `needle in hay` for Python strings, on character lists. -/
def containsSub (needle : List Char) : List Char → Bool
  | [] => needle.isPrefixOf []
  | c :: rest => needle.isPrefixOf (c :: rest) || containsSub needle rest

/-! ## fuzzywuzzy / difflib ratio

`difflib.SequenceMatcher(None, a, b)` with the default autojunk heuristic.
`b2j` omits positions of "popular" characters of `b` (count > len(b)//100 + 1)
when `len(b) >= 200`; matching chains only pass through non-junk positions. -/

namespace SeqM

/-- Characters of `b` treated as junk by the autojunk heuristic. -/
def junkOf (b : List Char) : List Char :=
  if 200 ≤ b.length then b.dedup.filter (fun c => b.length / 100 + 1 < b.count c) else []

/-- Position `(i, j)` can carry a matching chain: inside the window on the low
side, equal characters, and `b j` not junk (junk positions are absent from
`b2j`, so no chain passes through them). -/
def okpos (a b junk : List Char) (alo blo i j : Nat) : Bool :=
  alo ≤ i && blo ≤ j && a.getD i ' ' == b.getD j ' ' && !(junk.contains (b.getD j ' '))

/-- Length of the matching chain ending at `(i, j)` — the value `j2len[j]`
computed by `find_longest_match` while scanning row `i`. -/
def lcsuf (a b junk : List Char) (alo blo : Nat) : Nat → Nat → Nat
  | 0, j => if okpos a b junk alo blo 0 j then 1 else 0
  | i + 1, 0 => if okpos a b junk alo blo (i + 1) 0 then 1 else 0
  | i + 1, j + 1 =>
    if okpos a b junk alo blo (i + 1) (j + 1) then 1 + lcsuf a b junk alo blo i j else 0

/-- The scan order of `find_longest_match`: `i` ascending, then `j` ascending. -/
def winPairs (alo ahi blo bhi : Nat) : List (Nat × Nat) :=
  ((List.range' alo (ahi - alo)).map
    (fun i => (List.range' blo (bhi - blo)).map (fun j => (i, j)))).flatten

/-- Largest chain length inside the window. -/
def kmaxOf (a b junk : List Char) (alo ahi blo bhi : Nat) : Nat :=
  ((winPairs alo ahi blo bhi).map (fun p => lcsuf a b junk alo blo p.1 p.2)).foldr max 0

/-- The dynamic-programming part of `find_longest_match`: the best block is the
one whose end position first attains the maximal chain length in scan order
(`if k > bestsize` updates on strictly greater values only). -/
def flmBase (a b junk : List Char) (alo ahi blo bhi : Nat) : Nat × Nat × Nat :=
  let k := kmaxOf a b junk alo ahi blo bhi
  if k = 0 then (alo, blo, 0)
  else
    match (winPairs alo ahi blo bhi).find?
        (fun p => lcsuf a b junk alo blo p.1 p.2 == k) with
    | some (i, j) => (i + 1 - k, j + 1 - k, k)
    | none => (alo, blo, 0)

/-- One of the four extension passes of `find_longest_match`, downward:
`while besti > alo and bestj > blo and p(b[bestj-1]) and a[besti-1] == b[bestj-1]`. -/
def extendLower (a b : List Char) (p : Char → Bool) (alo blo : Nat) :
    Nat → Nat → Nat → Nat × Nat × Nat
  | 0, bestj, k => (0, bestj, k)
  | bi + 1, bestj, k =>
    if alo < bi + 1 && blo < bestj && p (b.getD (bestj - 1) ' ')
        && (a.getD bi ' ' == b.getD (bestj - 1) ' ') then
      extendLower a b p alo blo bi (bestj - 1) (k + 1)
    else (bi + 1, bestj, k)

/-- Extension pass of `find_longest_match`, upward; `fuel` dominates the number
of iterations (`besti + k < ahi` bounds them by `ahi`). -/
def extendUpper (a b : List Char) (p : Char → Bool) (ahi bhi : Nat) :
    Nat → Nat → Nat → Nat → Nat × Nat × Nat
  | 0, besti, bestj, k => (besti, bestj, k)
  | fuel + 1, besti, bestj, k =>
    if besti + k < ahi && bestj + k < bhi && p (b.getD (bestj + k) ' ')
        && (a.getD (besti + k) ' ' == b.getD (bestj + k) ' ') then
      extendUpper a b p ahi bhi fuel besti bestj (k + 1)
    else (besti, bestj, k)

/-- `find_longest_match`: DP search, then the four extension passes
(non-junk below, non-junk above, junk below, junk above). -/
def findLongestMatch (a b junk : List Char) (alo ahi blo bhi : Nat) : Nat × Nat × Nat :=
  let s0 := flmBase a b junk alo ahi blo bhi
  let s1 := extendLower a b (fun c => !(junk.contains c)) alo blo s0.1 s0.2.1 s0.2.2
  let s2 := extendUpper a b (fun c => !(junk.contains c)) ahi bhi ahi s1.1 s1.2.1 s1.2.2
  let s3 := extendLower a b (fun c => junk.contains c) alo blo s2.1 s2.2.1 s2.2.2
  extendUpper a b (fun c => junk.contains c) ahi bhi ahi s3.1 s3.2.1 s3.2.2

/-- Total size of the matching blocks of `get_matching_blocks` (the final
adjacent-block merge does not change the total).  The recursion of
`get_matching_blocks` shrinks the `a`-window strictly on both sides, so a fuel
of window length + 1 never runs out. -/
def matchSum (a b junk : List Char) : Nat → Nat → Nat → Nat → Nat → Nat
  | 0, _, _, _, _ => 0
  | fuel + 1, alo, ahi, blo, bhi =>
    let t := findLongestMatch a b junk alo ahi blo bhi
    if t.2.2 = 0 then 0
    else
      matchSum a b junk fuel alo t.1 blo t.2.1 + t.2.2 +
        matchSum a b junk fuel (t.1 + t.2.2) ahi (t.2.1 + t.2.2) bhi

/-- Python `int(round(num / den))` for the exact rational `num / den`
(banker's rounding, exact for the magnitudes occurring here). -/
def roundHalfEven (num den : Nat) : Nat :=
  let q := num / den
  let r := num % den
  if 2 * r < den then q
  else if den < 2 * r then q + 1
  else if q % 2 = 0 then q else q + 1

/-- `int(round(100 * SequenceMatcher(None, x, y).ratio()))`;
`_calculate_ratio` returns `1.0` on two empty sequences. -/
def seqRatio (x y : List Char) : Nat :=
  let m := matchSum x y (junkOf y) (x.length + 1) 0 x.length 0 y.length
  if x.length + y.length = 0 then 100 else roundHalfEven (200 * m) (x.length + y.length)

end SeqM

/-- `fuzzywuzzy.fuzz.ratio` — the `check_for_equal` decorator returns 100 for
equal arguments, otherwise the `SequenceMatcher` ratio. -/
def fuzzRatio (s1 s2 : String) : Nat :=
  if s1 = s2 then 100 else SeqM.seqRatio s1.data s2.data

/-! ## Job records and the processor (`processor.py`) -/

/-- One job record: the dict produced by `BaseScraper.make_job_record`. -/
structure Job where
  company : String
  title : String
  location : String
  platformSource : String
  datePosted : String
  postingCategory : String
  salaryPackage : String
  jobLink : String
deriving DecidableEq

/-- `platform_priority.get(x.get("Platform Source", ""), 99)` in `_deduplicate`. -/
def platformPriority (j : Job) : Nat :=
  if j.platformSource = "Naukri" then 0
  else if j.platformSource = "LinkedIn" then 1
  else if j.platformSource = "Indeed" then 2
  else if j.platformSource = "Wellfound" then 3
  else 99

/-- The `(comp, title, loc)` triple of lowercased, stripped fields used by
`_deduplicate` for fuzzy comparison and recorded in `seen`. -/
def normTriple (j : Job) : String × String × String :=
  (pyLower (pyStrip j.company), pyLower (pyStrip j.title), pyLower (pyStrip j.location))

/-- The duplicate test of `_deduplicate` between a candidate triple and one
`seen` triple: company ratio >= 80 and title ratio >= 85, and, when both
locations are non-empty, location ratio >= 60 (otherwise a duplicate outright). -/
def isDupOf (cand seenT : String × String × String) : Bool :=
  if 80 ≤ fuzzRatio cand.1 seenT.1 ∧ 85 ≤ fuzzRatio cand.2.1 seenT.2.1 then
    if cand.2.2 ≠ "" ∧ seenT.2.2 ≠ "" then decide (60 ≤ fuzzRatio cand.2.2 seenT.2.2)
    else true
  else false

/-- The greedy acceptance loop of `_deduplicate` over the priority-sorted list;
`seen` is the list of accepted triples, scanned left to right with first
sufficient match winning (only the boolean outcome reaches the caller). -/
def dedupPass : List Job → List (String × String × String) → List Job
  | [], _ => []
  | j :: rest, seen =>
    if seen.any (fun s => isDupOf (normTriple j) s) then dedupPass rest seen
    else j :: dedupPass rest (seen ++ [normTriple j])

/-- The comparison key of the stable `sorted(...)` call in `_deduplicate`. -/
def priorityLe (x y : Job) : Prop := platformPriority x ≤ platformPriority y

instance : DecidableRel priorityLe := fun _ _ => Nat.decLe _ _

instance : IsTotal Job priorityLe := ⟨fun _ _ => Nat.le_total _ _⟩

instance : IsTrans Job priorityLe := ⟨fun _ _ _ h h2 => Nat.le_trans h h2⟩

/-- `_deduplicate`: early return on an empty list, else the stable
priority sort followed by the greedy fuzzy pass. -/
def deduplicate (jobs : List Job) : List Job :=
  match jobs with
  | [] => []
  | _ :: _ => dedupPass (List.insertionSort priorityLe jobs) []

/-- `merge_with_existing`: `existing = none` models the load failure paths
(missing / unreadable file) in which the new batch is returned unchanged;
otherwise the union is re-deduplicated. -/
def mergeWithExisting (newJobs : List Job) (existing : Option (List Job)) : List Job :=
  match existing with
  | none => newJobs
  | some ex => deduplicate (ex ++ newJobs)

/-- `new_count = len(deduped) - len(existing_records)` (a Python int, possibly
negative). -/
def mergeNewCount (newJobs ex : List Job) : Int :=
  ((deduplicate (ex ++ newJobs)).length : Int) - (ex.length : Int)

/-- The value the merge step logs: `max(0, new_count)`. -/
def mergeNewCountReported (newJobs ex : List Job) : Int :=
  max 0 (mergeNewCount newJobs ex)

/-! ## Basic properties of the duplicate test and the greedy pass -/

theorem fuzzRatio_self (s : String) : fuzzRatio s s = 100 := by
  simp [fuzzRatio]

theorem isDupOf_refl (t : String × String × String) : isDupOf t t = true := by
  simp only [isDupOf, fuzzRatio_self]
  rw [if_pos (by omega)]
  split
  · decide
  · rfl

theorem dedupPass_sublist : ∀ (L : List Job) (seen), List.Sublist (dedupPass L seen) L
  | [], _ => List.Sublist.refl _
  | j :: rest, seen => by
    rw [dedupPass]
    split
    · exact (dedupPass_sublist rest seen).cons j
    · exact (dedupPass_sublist rest _).cons₂ j

theorem dedupPass_idem :
    ∀ (L : List Job) (seen), dedupPass (dedupPass L seen) seen = dedupPass L seen
  | [], _ => rfl
  | j :: rest, seen => by
    by_cases h : (seen.any fun s => isDupOf (normTriple j) s) = true
    · have ated : dedupPass (j :: rest) seen = dedupPass rest seen := by
        rw [dedupPass, if_pos h]
      rw [ated, dedupPass_idem rest seen]
    · have ated : dedupPass (j :: rest) seen
          = j :: dedupPass rest (seen ++ [normTriple j]) := by
        rw [dedupPass, if_neg h]
      rw [ated, dedupPass, if_neg h, dedupPass_idem rest (seen ++ [normTriple j])]

/-- A job that fuzzily matches some triple of `seen` never appears in the
output: `seen` only grows along the pass. -/
theorem dedupPass_not_mem_of_dup (n : Job) :
    ∀ (L : List Job) (seen), (seen.any fun s => isDupOf (normTriple n) s) = true →
      n ∉ dedupPass L seen
  | [], _, _ => List.not_mem_nil n
  | j :: rest, seen, h => by
    by_cases hj : (seen.any fun s => isDupOf (normTriple j) s) = true
    · rw [dedupPass, if_pos hj]
      exact dedupPass_not_mem_of_dup n rest seen h
    · rw [dedupPass, if_neg hj]
      intro hmem
      rcases List.mem_cons.mp hmem with rfl | hmem
      · exact hj h
      · exact dedupPass_not_mem_of_dup n rest (seen ++ [normTriple j])
          (by rw [List.any_append]; rw [h]; rfl) hmem

/-- If `p` comes before `n` in the processed list, `p` is accepted, and `n`
fuzzily matches `p`, then `n` is discarded. -/
theorem dedupPass_excludes {p n : Job}
    (hdup : isDupOf (normTriple n) (normTriple p) = true) :
    ∀ (L : List Job) (seen), L.Nodup → List.Sublist [p, n] L →
      p ∈ dedupPass L seen → n ∉ dedupPass L seen
  | [], _, _, hsub, _ => by simp at hsub
  | x :: rest, seen, hnd, hsub, hpmem => by
    have hxrest : x ∉ rest := (List.nodup_cons.mp hnd).1
    have hndr : rest.Nodup := (List.nodup_cons.mp hnd).2
    cases hsub with
    | cons _ hsub =>
      by_cases hx : (seen.any fun s => isDupOf (normTriple x) s) = true
      · rw [dedupPass, if_pos hx] at hpmem ⊢
        exact dedupPass_excludes hdup rest seen hndr hsub hpmem
      · rw [dedupPass, if_neg hx] at hpmem ⊢
        have hpD : p ∈ dedupPass rest (seen ++ [normTriple x]) := by
          rcases List.mem_cons.mp hpmem with rfl | hpD
          · exact absurd (hsub.subset (by simp)) hxrest
          · exact hpD
        intro hnmem
        rcases List.mem_cons.mp hnmem with rfl | hnmem
        · exact hxrest (hsub.subset (by simp))
        · exact dedupPass_excludes hdup rest (seen ++ [normTriple x]) hndr hsub hpD hnmem
    | cons₂ _ hsub =>
      by_cases hx : (seen.any fun s => isDupOf (normTriple p) s) = true
      · rw [dedupPass, if_pos hx] at hpmem
        exact absurd ((dedupPass_sublist rest seen).subset hpmem) hxrest
      · rw [dedupPass, if_neg hx]
        intro hnmem
        rcases List.mem_cons.mp hnmem with rfl | hnmem
        · exact hxrest (hsub.subset (by simp))
        · exact dedupPass_not_mem_of_dup n rest (seen ++ [normTriple p])
            (by
              rw [List.any_append]
              have : ([normTriple p].any fun s => isDupOf (normTriple n) s) = true := by
                simp [hdup]
              rw [this, Bool.or_true]) hnmem

/-! ## Stability of the priority sort -/

theorem pair_sublist_insertionSort {α : Type} (r : α → α → Prop) [DecidableRel r] {a b : α} :
    ∀ {l : List α}, r a b → List.Sublist [a, b] l → List.Sublist [a, b] (List.insertionSort r l) := by
  intro l
  induction l with
  | nil => intro _ h; simp at h
  | cons x t ih =>
    intro hr hsub
    rw [List.insertionSort]
    cases hsub with
    | cons _ h => exact (ih hr h).trans (List.sublist_orderedInsert x _)
    | cons₂ _ h =>
      refine List.cons_sublist_orderedInsert ?_ ?_
      · exact List.singleton_sublist.mpr
          ((List.mem_insertionSort r).mpr (List.singleton_sublist.mp h))
      · intro y hy
        rw [List.mem_singleton] at hy
        subst hy
        exact hr

theorem pair_sublist_of_mem {α : Type} {a b : α} :
    ∀ {l : List α}, a ∈ l → b ∈ l → a ≠ b → List.Sublist [a, b] l ∨ List.Sublist [b, a] l := by
  intro l
  induction l with
  | nil => simp
  | cons x t ih =>
    intro ha hb hne
    rcases List.mem_cons.mp ha with hax | hat
    · subst hax
      have hbt : b ∈ t := (List.mem_cons.mp hb).resolve_left fun e => hne e.symm
      exact Or.inl ((List.singleton_sublist.mpr hbt).cons₂ a)
    · rcases List.mem_cons.mp hb with hbx | hbt
      · subst hbx
        exact Or.inr ((List.singleton_sublist.mpr hat).cons₂ b)
      · exact (ih hat hbt hne).imp (fun h => h.cons x) (fun h => h.cons x)

theorem pair_sublist_antisymm {α : Type} {a b : α} :
    ∀ {l : List α}, l.Nodup → List.Sublist [a, b] l → List.Sublist [b, a] l → a = b := by
  intro l
  induction l with
  | nil => intro _ h; simp at h
  | cons x t ih =>
    intro hnd h1 h2
    cases h1 with
    | cons _ h1 =>
      cases h2 with
      | cons _ h2 => exact ih (List.nodup_cons.mp hnd).2 h1 h2
      | cons₂ _ h2 => exact absurd (h1.subset (by simp)) (List.nodup_cons.mp hnd).1
    | cons₂ _ h1 =>
      cases h2 with
      | cons _ h2 => exact absurd (h2.subset (by simp)) (List.nodup_cons.mp hnd).1
      | cons₂ _ h2 => rfl

/-! ## Concrete example records -/

/-- Naukri-sourced example record. -/
def exNaukri : Job :=
  ⟨"Acme Corp", "Data Analyst", "Delhi", "Naukri", "", "", "NULL", "n-1"⟩

/-- LinkedIn-sourced example record, unrelated to `exNaukri`. -/
def exLinkedIn : Job :=
  ⟨"Zyxco", "QA Tester", "Pune", "LinkedIn", "", "", "NULL", "l-1"⟩

/-! ## Claim C3 -/

/-- C3: deduplication is idempotent — for every input list `X`,
`_deduplicate(_deduplicate(X))` equals `_deduplicate(X)`, both in the records
kept and in their order. -/
theorem C3_deduplicate_idempotent (X : List Job) :
    deduplicate (deduplicate X) = deduplicate X := by
  match X with
  | [] => rfl
  | x :: xs =>
    have hded : deduplicate (x :: xs)
        = dedupPass (List.insertionSort priorityLe (x :: xs)) [] := rfl
    rw [hded]
    cases hU : dedupPass (List.insertionSort priorityLe (x :: xs)) [] with
    | nil => rfl
    | cons u us =>
      have hsorted : List.Sorted priorityLe (u :: us) := by
        rw [← hU]
        exact List.Pairwise.sublist (dedupPass_sublist _ _)
          (List.sorted_insertionSort priorityLe (x :: xs))
      have h2 : deduplicate (u :: us)
          = dedupPass (List.insertionSort priorityLe (u :: us)) [] := rfl
      rw [h2, hsorted.insertionSort_eq, ← hU, dedupPass_idem]

/-! ## Claim C10 -/

/-- C10: the deduplicator returns its accepted records ordered by ascending
platform priority, preserving the input order among records of equal priority
(for pairwise-distinct records); consequently the output order can differ
from the input order even when nothing is removed, as the concrete
LinkedIn/Naukri pair shows. -/
theorem C10_dedup_order (L : List Job) (hnd : L.Nodup) :
    List.Sorted priorityLe (deduplicate L) ∧
    (∀ a b : Job, platformPriority a = platformPriority b →
      List.Sublist [a, b] (deduplicate L) → List.Sublist [a, b] L) ∧
    (deduplicate [exLinkedIn, exNaukri] = [exNaukri, exLinkedIn] ∧
      [exNaukri, exLinkedIn] ≠ [exLinkedIn, exNaukri]) := by
  refine ⟨?_, ?_, by decide, by decide⟩
  · match L with
    | [] => exact List.sorted_nil
    | x :: xs =>
      exact List.Pairwise.sublist (dedupPass_sublist _ _)
        (List.sorted_insertionSort priorityLe (x :: xs))
  · intro a b hkey hab
    match L, hnd, hab with
    | [], _, hab => simp [deduplicate] at hab
    | x :: xs, hnd, hab =>
      have hded : deduplicate (x :: xs)
          = dedupPass (List.insertionSort priorityLe (x :: xs)) [] := rfl
      rw [hded] at hab
      have hS : List.Sublist [a, b] (List.insertionSort priorityLe (x :: xs)) :=
        hab.trans (dedupPass_sublist _ _)
      have hndS : (List.insertionSort priorityLe (x :: xs)).Nodup :=
        ((List.perm_insertionSort priorityLe (x :: xs)).nodup_iff).mpr hnd
      have hne : a ≠ b := by
        have hpair : ([a, b] : List Job).Nodup := List.Nodup.sublist hS hndS
        simpa using (List.nodup_cons.mp hpair).1
      have haL : a ∈ x :: xs :=
        (List.perm_insertionSort priorityLe (x :: xs)).subset (hS.subset (by simp))
      have hbL : b ∈ x :: xs :=
        (List.perm_insertionSort priorityLe (x :: xs)).subset (hS.subset (by simp))
      rcases pair_sublist_of_mem haL hbL hne with h | h
      · exact h
      · exfalso
        have hba : List.Sublist [b, a] (List.insertionSort priorityLe (x :: xs)) :=
          pair_sublist_insertionSort priorityLe (le_of_eq hkey.symm) h
        exact hne (pair_sublist_antisymm hndS hS hba)

theorem C10_dedup_order_witness :
    List.Sorted priorityLe (deduplicate [exLinkedIn, exNaukri]) :=
  (C10_dedup_order [exLinkedIn, exNaukri] (by decide)).1

/-! ## Claim C4 -/

/-- Naukri record with location "Delhi". -/
def c4a : Job := ⟨"Acme", "Analyst", "Delhi", "Naukri", "", "", "NULL", "a-1"⟩

/-- Wellfound record with the same company/title but a dissimilar location. -/
def c4b : Job := ⟨"Acme", "Analyst", "Xqzzw", "Wellfound", "", "", "NULL", "b-1"⟩

/-- C4 is false as stated: two records with identical normalized company and
title and differing platform priority both survive when their locations are
both non-empty and dissimilar (location ratio below 60). -/
theorem C4_counterexample :
    (normTriple c4a).1 = (normTriple c4b).1 ∧
    (normTriple c4a).2.1 = (normTriple c4b).2.1 ∧
    platformPriority c4a ≠ platformPriority c4b ∧
    deduplicate [c4a, c4b] = [c4a, c4b] := by decide

/-- C4 (amended): for two records with identical normalized company and title
and differing platform priority, *and whose locations are compatible (one of
them empty, or location similarity at least 60)*, only the record from the
higher-priority platform survives deduplication, whichever input order. -/
theorem C4_amended (a b : Job)
    (hc : pyLower (pyStrip b.company) = pyLower (pyStrip a.company))
    (ht : pyLower (pyStrip b.title) = pyLower (pyStrip a.title))
    (hp : platformPriority a < platformPriority b)
    (hl : pyLower (pyStrip b.location) = "" ∨ pyLower (pyStrip a.location) = "" ∨
      60 ≤ fuzzRatio (pyLower (pyStrip b.location)) (pyLower (pyStrip a.location))) :
    deduplicate [a, b] = [a] ∧ deduplicate [b, a] = [a] := by
  have hdup : isDupOf (normTriple b) (normTriple a) = true := by
    have hcomp : fuzzRatio (normTriple b).1 (normTriple a).1 = 100 := by
      simp only [normTriple]
      rw [hc, fuzzRatio_self]
    have htit : fuzzRatio (normTriple b).2.1 (normTriple a).2.1 = 100 := by
      simp only [normTriple]
      rw [ht, fuzzRatio_self]
    rw [isDupOf, hcomp, htit, if_pos (by omega)]
    by_cases hcase : (normTriple b).2.2 ≠ "" ∧ (normTriple a).2.2 ≠ ""
    · rw [if_pos hcase]
      rcases hl with h | h | h
      · exact absurd h hcase.1
      · exact absurd h hcase.2
      · exact decide_eq_true h
    · rw [if_neg hcase]
  have hab : priorityLe a b := le_of_lt hp
  have hnba : ¬ priorityLe b a := Nat.not_le.mpr hp
  have hsortab : List.insertionSort priorityLe [a, b] = [a, b] := by
    simp [List.insertionSort, List.orderedInsert, hab]
  have hsortba : List.insertionSort priorityLe [b, a] = [a, b] := by
    simp [List.insertionSort, List.orderedInsert, hnba]
  have hpass : dedupPass [a, b] [] = [a] := by
    rw [dedupPass, if_neg (by simp), dedupPass, if_pos (by simp [hdup])]
    rfl
  constructor
  · show dedupPass (List.insertionSort priorityLe [a, b]) [] = [a]
    rw [hsortab, hpass]
  · show dedupPass (List.insertionSort priorityLe [b, a]) [] = [a]
    rw [hsortba, hpass]

/-- Higher-priority side of the C4 witness pair. -/
def c4wa : Job := ⟨"Acme", "Analyst", "Delhi", "Naukri", "", "", "NULL", "wa-1"⟩

/-- Lower-priority side of the C4 witness pair, with an empty location. -/
def c4wb : Job := ⟨" acme ", "ANALYST", "", "Wellfound", "", "", "NULL", "wb-1"⟩

theorem C4_amended_witness :
    deduplicate [c4wa, c4wb] = [c4wa] ∧ deduplicate [c4wb, c4wa] = [c4wa] :=
  C4_amended c4wa c4wb (by decide) (by decide) (by decide) (Or.inl (by decide))

/-! ## Claim C1 -/

/-- Previously persisted record, from the lowest-priority platform. -/
def c1p : Job := ⟨"Acme", "Analyst", "Delhi", "Wellfound", "", "", "NULL", "old-1"⟩

/-- Re-derived duplicate in the new batch, from the highest-priority platform. -/
def c1n : Job := ⟨"Acme", "Analyst", "Delhi", "Naukri", "", "", "NULL", "new-1"⟩

/-- C1 is false as stated: when the new-batch record comes from a platform of
strictly higher priority than the previous record it duplicates, the merge
keeps the *new* record and discards the previous one. -/
theorem C1_counterexample :
    isDupOf (normTriple c1n) (normTriple c1p) = true ∧
    platformPriority c1p ≠ platformPriority c1n ∧
    mergeWithExisting [c1n] (some [c1p]) = [c1n] ∧
    c1p ∉ mergeWithExisting [c1n] (some [c1p]) := by decide

/-- C1 (amended): for pairwise-distinct records, whenever a record `n` of the
new batch is a fuzzy duplicate of a record `p` of the previous canonical set,
the platform priority of `n` is not strictly higher than that of `p`, and `p`
itself survives into the merged set, then `n` is discarded by the merge. -/
theorem C1_amended (P N : List Job) (p n : Job)
    (hnd : (P ++ N).Nodup) (hp : p ∈ P) (hn : n ∈ N)
    (hdup : isDupOf (normTriple n) (normTriple p) = true)
    (hprio : platformPriority p ≤ platformPriority n)
    (hsurv : p ∈ mergeWithExisting N (some P)) :
    n ∉ mergeWithExisting N (some P) := by
  have hmem : p ∈ P ++ N := List.mem_append_left N hp
  have hsub : List.Sublist [p, n] (P ++ N) :=
    List.Sublist.append (List.singleton_sublist.mpr hp) (List.singleton_sublist.mpr hn)
  cases hE : P ++ N with
  | nil => rw [hE] at hmem; simp at hmem
  | cons y ys =>
    have hded : deduplicate (P ++ N)
        = dedupPass (List.insertionSort priorityLe (P ++ N)) [] := by
      rw [hE]
      rfl
    have hS : List.Sublist [p, n] (List.insertionSort priorityLe (P ++ N)) :=
      pair_sublist_insertionSort priorityLe hprio hsub
    have hndS : (List.insertionSort priorityLe (P ++ N)).Nodup :=
      ((List.perm_insertionSort priorityLe (P ++ N)).nodup_iff).mpr hnd
    have hsurv2 : p ∈ dedupPass (List.insertionSort priorityLe (P ++ N)) [] := by
      rw [← hded]
      exact hsurv
    show n ∉ deduplicate (P ++ N)
    rw [hded]
    exact dedupPass_excludes hdup _ [] hndS hS hsurv2

/-- Previously persisted witness record. -/
def c1wp : Job := ⟨"Acme", "Analyst", "Delhi", "Wellfound", "", "", "NULL", "wp-1"⟩

/-- Equal-priority re-derived duplicate of `c1wp` in the new batch. -/
def c1wn : Job := ⟨"Acme", "Analyst", "Delhi", "Wellfound", "", "", "NULL", "wn-1"⟩

theorem C1_amended_witness :
    c1wn ∉ mergeWithExisting [c1wn] (some [c1wp]) :=
  C1_amended [c1wp] [c1wn] c1wp c1wn (by decide) (by decide) (by decide)
    (by decide) (by decide) (by decide)

/-! ## Claim C5 -/

/-- Unfolding of `_deduplicate` on a non-empty input. -/
theorem deduplicate_eq (L : List Job) (h : L ≠ []) :
    deduplicate L = dedupPass (List.insertionSort priorityLe L) [] := by
  match L with
  | [] => exact absurd rfl h
  | x :: xs => rfl

/-- When all distinct triples occurring in the input are mutually non-matching
(the only fuzzy matches are exact triple repetitions), the greedy pass keeps
exactly one record per distinct triple not already in `seen`. -/
theorem dedupPass_length_sep (T : List (String × String × String))
    (hsep : ∀ s ∈ T, ∀ t ∈ T, s ≠ t → isDupOf s t = false) :
    ∀ (L : List Job) (seen),
      (∀ j ∈ L, normTriple j ∈ T) → (∀ t ∈ seen, t ∈ T) →
      (dedupPass L seen).length
        = ((L.map normTriple).toFinset \ seen.toFinset).card
  | [], seen, _, _ => by simp [dedupPass]
  | j :: rest, seen, hL, hSn => by
    have hjT : normTriple j ∈ T := hL j (by simp)
    have hrest : ∀ x ∈ rest, normTriple x ∈ T := fun x hx => hL x (by simp [hx])
    have hanymem : (seen.any fun s => isDupOf (normTriple j) s) = true
        ↔ normTriple j ∈ seen := by
      constructor
      · intro h
        rcases List.any_eq_true.mp h with ⟨s, hs, hds⟩
        by_cases he : normTriple j = s
        · rw [he]
          exact hs
        · rw [hsep (normTriple j) hjT s (hSn s hs) he] at hds
          exact Bool.noConfusion hds
      · intro h
        exact List.any_eq_true.mpr ⟨normTriple j, h, isDupOf_refl _⟩
    by_cases hin : normTriple j ∈ seen
    · rw [dedupPass, if_pos (hanymem.mpr hin),
        dedupPass_length_sep T hsep rest seen hrest hSn]
      congr 1
      rw [List.map_cons, List.toFinset_cons]
      exact (Finset.insert_sdiff_of_mem _ (List.mem_toFinset.mpr hin)).symm
    · have hs2 : ∀ t ∈ seen ++ [normTriple j], t ∈ T := by
        intro t ht
        rcases List.mem_append.mp ht with h | h
        · exact hSn t h
        · rw [List.mem_singleton.mp h]
          exact hjT
      rw [dedupPass, if_neg (fun hcon => hin (hanymem.mp hcon)), List.length_cons,
        dedupPass_length_sep T hsep rest (seen ++ [normTriple j]) hrest hs2]
      rw [List.map_cons, List.toFinset_cons,
        Finset.insert_sdiff_of_not_mem _ (fun hcon => hin (List.mem_toFinset.mp hcon))]
      have he1 : (rest.map normTriple).toFinset \ (seen ++ [normTriple j]).toFinset
          = ((rest.map normTriple).toFinset \ seen.toFinset).erase (normTriple j) := by
        ext x
        simp only [Finset.mem_sdiff, List.mem_toFinset, List.mem_append,
          List.mem_singleton, Finset.mem_erase]
        tauto
      have he2 : insert (normTriple j) ((rest.map normTriple).toFinset \ seen.toFinset)
          = insert (normTriple j)
              (((rest.map normTriple).toFinset \ seen.toFinset).erase (normTriple j)) := by
        ext x
        simp only [Finset.mem_insert, Finset.mem_erase]
        tauto
      rw [he1, he2,
        Finset.card_insert_of_not_mem (Finset.not_mem_erase _ _)]

/-- C5: with ten pairwise non-duplicate previous records and five new records
of which exactly two repeat an existing normalized triple (all other pairs of
distinct records being non-matching), the merged set has 13 records and the
reported new count is 3; in general the reported count is
`max 0 (len(merged) - len(previous))`. -/
theorem C5_merge_counts (P N : List Job)
    (hlenP : P.length = 10) (hlenN : N.length = 5)
    (hndP : (P.map normTriple).Nodup)
    (hndN : (N.map normTriple).Nodup)
    (hsep : ∀ s ∈ (P ++ N).map normTriple, ∀ t ∈ (P ++ N).map normTriple,
      s ≠ t → isDupOf s t = false)
    (hdups : ((N.map normTriple).filter
      (fun t => decide (t ∈ P.map normTriple))).length = 2) :
    (mergeWithExisting N (some P)).length = 13 ∧
    mergeNewCountReported N P = 3 ∧
    (∀ (M Q : List Job), mergeNewCountReported M Q
      = max 0 (((mergeWithExisting M (some Q)).length : Int) - (Q.length : Int))) := by
  have hne : P ++ N ≠ [] := by
    intro h
    have h0 := congrArg List.length h
    rw [List.length_append, hlenP, hlenN] at h0
    simp at h0
  have h13 : (deduplicate (P ++ N)).length = 13 := by
    have hded := deduplicate_eq (P ++ N) hne
    have hLmem : ∀ j ∈ List.insertionSort priorityLe (P ++ N),
        normTriple j ∈ (P ++ N).map normTriple := by
      intro j hj
      exact List.mem_map_of_mem normTriple
        ((List.perm_insertionSort priorityLe (P ++ N)).subset hj)
    have hcount := dedupPass_length_sep ((P ++ N).map normTriple) hsep
      (List.insertionSort priorityLe (P ++ N)) [] hLmem (by simp)
    have hperm : ((List.insertionSort priorityLe (P ++ N)).map normTriple).toFinset
        = ((P ++ N).map normTriple).toFinset :=
      List.toFinset_eq_of_perm _ _
        ((List.perm_insertionSort priorityLe (P ++ N)).map normTriple)
    have hunion : ((P ++ N).map normTriple).toFinset
        = (P.map normTriple).toFinset ∪ (N.map normTriple).toFinset := by
      rw [List.map_append, List.toFinset_append]
    have hcardP : (P.map normTriple).toFinset.card = 10 := by
      rw [List.toFinset_card_of_nodup hndP, List.length_map, hlenP]
    have hfilters : ((N.map normTriple).filter
        (fun t => !(decide (t ∈ P.map normTriple)))).length = 3 := by
      have hsplit := @List.length_eq_length_filter_add _ (N.map normTriple)
        (fun t => decide (t ∈ P.map normTriple))
      rw [List.length_map, hlenN, hdups] at hsplit
      omega
    have hsdiff : (N.map normTriple).toFinset \ (P.map normTriple).toFinset
        = ((N.map normTriple).filter
            (fun t => !(decide (t ∈ P.map normTriple)))).toFinset := by
      ext x
      simp only [Finset.mem_sdiff, List.mem_toFinset, List.mem_filter,
        Bool.not_eq_eq_eq_not, Bool.not_true, decide_eq_false_iff_not]
    have hcardDiff : ((N.map normTriple).toFinset \ (P.map normTriple).toFinset).card
        = 3 := by
      rw [hsdiff, List.toFinset_card_of_nodup (hndN.filter _), hfilters]
    have hctot := Finset.card_sdiff_add_card
      (N.map normTriple).toFinset (P.map normTriple).toFinset
    rw [hcardDiff, hcardP, Finset.union_comm] at hctot
    rw [hded, hcount, hperm]
    simp only [List.toFinset_nil, Finset.sdiff_empty]
    rw [hunion]
    omega
  refine ⟨h13, ?_, ?_⟩
  · show max 0 (((deduplicate (P ++ N)).length : Int) - (P.length : Int)) = 3
    rw [h13, hlenP]
    decide
  · intro M Q
    rfl

/-- Witness record builder: company / platform / link, fixed title and location. -/
def mkW (c p l : String) : Job := ⟨c, "Analyst", "Delhi", p, "", "", "NULL", l⟩

/-- Ten pairwise non-duplicate previously persisted records. -/
def wP : List Job :=
  [mkW "c01" "Naukri" "p01", mkW "c02" "LinkedIn" "p02", mkW "c03" "Indeed" "p03",
   mkW "c04" "Wellfound" "p04", mkW "c05" "Naukri" "p05", mkW "c06" "LinkedIn" "p06",
   mkW "c07" "Indeed" "p07", mkW "c08" "Wellfound" "p08", mkW "c09" "Naukri" "p09",
   mkW "c10" "LinkedIn" "p10"]

/-- Five new records: two repeat the triples of "c03" / "c07", three are new. -/
def wN : List Job :=
  [mkW "c03" "LinkedIn" "n01", mkW "c07" "Naukri" "n02", mkW "c11" "Indeed" "n03",
   mkW "c12" "LinkedIn" "n04", mkW "c13" "Naukri" "n05"]

theorem C5_merge_counts_witness :
    (mergeWithExisting wN (some wP)).length = 13 ∧ mergeNewCountReported wN wP = 3 :=
  (fun h => ⟨h.1, h.2.1⟩)
    (C5_merge_counts wP wN (by decide) (by decide) (by decide) (by decide)
      (by decide) (by decide))

/-! ## Normalizer: salary and validation (`processor.py`) -/

/-- `_normalize_salary`: trim; mark missing/placeholder values as "NULL". -/
def normalizeSalary (j : Job) : Job :=
  let salary := pyStrip j.salaryPackage
  if salary = "" ∨ pyLower salary ∈
      (["null", "none", "n/a", "not disclosed", "not mentioned", ""] : List String) then
    { j with salaryPackage := "NULL" }
  else j

/-- `_is_valid`: reject on missing/"unknown" company or missing title. -/
def isValid (j : Job) : Bool :=
  let company := pyStrip j.company
  if company = "" ∨ pyLower company ∈ (["unknown", ""] : List String) then false
  else
    let title := pyStrip j.title
    if title = "" then false
    else true

theorem pyLower_empty_iff (s : String) : pyLower s = "" ↔ s = "" := by
  obtain ⟨l⟩ := s
  constructor
  · intro h
    have hd : (pyLower ⟨l⟩).data = [] := by rw [h]
    have : l.map Char.toLower = [] := hd
    rcases List.map_eq_nil_iff.mp this with rfl
    rfl
  · intro h
    rw [h]
    rfl

/-! ## Claim C7 -/

/-- C7: after salary normalization the field is the sentinel "NULL" exactly
when the trimmed value is empty or a case-insensitive placeholder; any other
value is left unchanged; the result is never the empty string. -/
theorem C7_normalize_salary (j : Job) :
    ((normalizeSalary j).salaryPackage = "NULL"
      ↔ (pyStrip j.salaryPackage = "" ∨ pyLower (pyStrip j.salaryPackage) ∈
          (["null", "none", "n/a", "not disclosed", "not mentioned", ""] : List String))) ∧
    (normalizeSalary j).salaryPackage
      = (if pyStrip j.salaryPackage = "" ∨ pyLower (pyStrip j.salaryPackage) ∈
          (["null", "none", "n/a", "not disclosed", "not mentioned", ""] : List String)
         then "NULL" else j.salaryPackage) ∧
    (normalizeSalary j).salaryPackage ≠ "" := by
  by_cases h : pyStrip j.salaryPackage = "" ∨ pyLower (pyStrip j.salaryPackage) ∈
      (["null", "none", "n/a", "not disclosed", "not mentioned", ""] : List String)
  · refine ⟨?_, ?_, ?_⟩
    · rw [normalizeSalary, if_pos h]
      exact iff_of_true rfl h
    · rw [normalizeSalary, if_pos h, if_pos h]
    · rw [normalizeSalary, if_pos h]
      simp
  · have hunch : (normalizeSalary j).salaryPackage = j.salaryPackage := by
      rw [normalizeSalary, if_neg h]
    refine ⟨?_, ?_, ?_⟩
    · rw [hunch]
      constructor
      · intro hnull
        exfalso
        apply h
        rw [hnull]
        right
        decide
      · intro hcond
        exact absurd hcond h
    · rw [hunch, if_neg h]
    · rw [hunch]
      intro hempty
      apply h
      left
      rw [hempty]
      rfl

/-! ## Claim C8 -/

/-- C8: validation rejects a record exactly when the trimmed company is empty
or case-insensitively "unknown", or the trimmed title is empty; in particular
an "Unknown" company or an empty title is dropped and a normal record passes. -/
theorem C8_validate (j : Job) :
    (isValid j = false
      ↔ (pyStrip j.company = "" ∨ pyLower (pyStrip j.company) = "unknown" ∨
          pyStrip j.title = "")) ∧
    isValid ⟨"Unknown", "Analyst", "", "Naukri", "", "", "NULL", ""⟩ = false ∧
    isValid ⟨"Acme", "", "", "Naukri", "", "", "NULL", ""⟩ = false ∧
    isValid ⟨"Acme", "Analyst", "", "Naukri", "", "", "NULL", ""⟩ = true := by
  refine ⟨?_, by decide, by decide, by decide⟩
  rw [isValid]
  split
  · rename_i hc
    simp only [true_iff]
    rcases hc with hc | hc
    · exact Or.inl hc
    · rcases List.mem_pair.mp hc with hc | hc
      · exact Or.inr (Or.inl hc)
      · exact Or.inl ((pyLower_empty_iff _).mp hc)
  · rename_i hc
    rw [show (let title := pyStrip j.title;
        if title = "" then (false : Bool) else true)
        = (if pyStrip j.title = "" then (false : Bool) else true) from rfl]
    by_cases ht : pyStrip j.title = ""
    · rw [if_pos ht]
      simp only [true_iff]
      exact Or.inr (Or.inr ht)
    · rw [if_neg ht]
      simp only [Bool.true_eq_false, false_iff]
      intro hcon
      rcases hcon with h | h | h
      · exact hc (Or.inl h)
      · exact hc (Or.inr (List.mem_pair.mpr (Or.inl h)))
      · exact ht h

/-! ## Fetcher backoff (`scrapers/base.py`, `config.py`) -/

/-- `config.MAX_RETRIES`. -/
def MAX_RETRIES : Nat := 3

/-- `config.RETRY_DELAY` (seconds). -/
def RETRY_DELAY : Nat := 5

/-- The sleep `_fetch` inserts after a non-200 response on a given attempt:
`retryDelay * attempt` after 403, `retryDelay * attempt * 2` after 429, a flat
`retryDelay` for any other non-200 status (none after 200: it returns). -/
def fetchWaitAfter (retryDelay attempt status : Nat) : Option Nat :=
  if status = 200 then none
  else if status = 403 then some (retryDelay * attempt)
  else if status = 429 then some (retryDelay * attempt * 2)
  else some retryDelay

/-! ## Claim C9 -/

/-- C9: for every attempt number at least 1 and positive retry delay, the wait
after HTTP 429 strictly exceeds both the 403 wait for the same attempt and the
flat wait used for any other non-200 status. -/
theorem C9_backoff (retryDelay attempt status : Nat)
    (hrd : 0 < retryDelay) (hat : 1 ≤ attempt)
    (hs : status ≠ 200) (hs4 : status ≠ 403) (hs2 : status ≠ 429) :
    fetchWaitAfter retryDelay attempt 429 = some (retryDelay * attempt * 2) ∧
    fetchWaitAfter retryDelay attempt 403 = some (retryDelay * attempt) ∧
    fetchWaitAfter retryDelay attempt status = some retryDelay ∧
    retryDelay * attempt < retryDelay * attempt * 2 ∧
    retryDelay < retryDelay * attempt * 2 := by
  refine ⟨rfl, rfl, ?_, ?_, ?_⟩
  · rw [fetchWaitAfter, if_neg hs, if_neg hs4, if_neg hs2]
  · have hpos : 0 < retryDelay * attempt := Nat.mul_pos hrd hat
    omega
  · have h1 : retryDelay * 1 ≤ retryDelay * attempt := Nat.mul_le_mul_left _ hat
    rw [Nat.mul_one] at h1
    have hpos : 0 < retryDelay * attempt := Nat.mul_pos hrd hat
    omega

theorem C9_backoff_witness :
    fetchWaitAfter RETRY_DELAY 1 429 = some (RETRY_DELAY * 1 * 2) ∧
    fetchWaitAfter RETRY_DELAY 1 403 = some (RETRY_DELAY * 1) ∧
    fetchWaitAfter RETRY_DELAY 1 500 = some RETRY_DELAY ∧
    RETRY_DELAY * 1 < RETRY_DELAY * 1 * 2 ∧
    RETRY_DELAY < RETRY_DELAY * 1 * 2 :=
  C9_backoff RETRY_DELAY 1 500 (by decide) (by decide) (by decide) (by decide) (by decide)

/-! ## Extractors (`scrapers/base.py`, `scrapers/naukri.py`, `scrapers/linkedin.py`)

The selector / dataframe machinery (BeautifulSoup, pandas) is not embeddable;
a card / row is modelled by the per-field extraction results it yields, with
`none` for an absent element / cell.  Everything from there on follows the
source line by line. -/

/-- Python truthiness of an optional string (`None` and `""` are falsy). -/
def pyTruthy : Option String → Bool
  | some s => !(s == "")
  | none => false

/-- Python `x or dflt` for an optional string `x`. -/
def pyOr : Option String → String → String
  | some s, dflt => if s = "" then dflt else s
  | none, dflt => dflt

/-- `BaseScraper.make_job_record`; the salary argument may be `None`
(`(salary or "NULL").strip() if salary else "NULL"`). -/
def makeJobRecord (company title location platform datePosted : String)
    (salary : Option String) (link : String) : Job :=
  ⟨pyStrip company, pyStrip title, pyStrip location, platform, pyStrip datePosted, "",
    (match salary with
     | some sal => if sal = "" then "NULL" else pyStrip sal
     | none => "NULL"),
    pyStrip link⟩

/-- Field texts extracted from one Naukri job card (`none` = element absent;
`get_text(strip=True)` may still give an empty string). -/
structure NaukriCard where
  title : Option String
  href : Option String
  company : Option String
  location : Option String
  salary : Option String
  date : Option String
deriving DecidableEq

/-- `NaukriScraper._parse_card` from the extracted fields onward. -/
def naukriParseCard (card : NaukriCard) : Option Job :=
  let link : Option String :=
    if card.title ≠ none ∧ pyTruthy card.href = true then
      some (let l := card.href.getD ""
            if ("http".data.isPrefixOf l.data) = false then
              String.append "https://www.naukri.com" l
            else l)
    else none
  let salary : Option String :=
    match card.salary with
    | some sal =>
      if sal ≠ "" ∧ pyLower sal ∈ (["not disclosed", "not mentioned"] : List String) then
        none
      else some sal
    | none => none
  if pyTruthy card.title = false ∧ pyTruthy card.company = false then none
  else some (makeJobRecord (pyOr card.company "Unknown") (pyOr card.title "Data Analyst")
    (card.location.getD "") "Naukri" (card.date.getD "") salary (link.getD ""))

/-- The acceptance filter of `NaukriScraper._parse_page`:
`if job and job.get("Company Name")`. -/
def naukriParsePage (cards : List NaukriCard) : List Job :=
  (cards.filterMap naukriParseCard).filter (fun j => !(j.company == ""))

/-- One python-jobspy result row (`none` = missing / falsy cell; pay amounts
are modelled as integers). -/
structure LinkedInRow where
  company : Option String
  title : Option String
  location : Option String
  minAmount : Option Nat
  maxAmount : Option Nat
  currency : String
  interval : String
  datePosted : Option String
  jobUrl : Option String
deriving DecidableEq

/-- `str(row.get(k, "")).strip() if row.get(k) else None`. -/
def liStr : Option String → Option String
  | some s => if s = "" then none else some (pyStrip s)
  | none => none

/-- Python truthiness of an optional number (`None` and `0` are falsy). -/
def pyTruthyNum : Option Nat → Bool
  | some v => !(v == 0)
  | none => false

/-- Digit grouping of `f"{x:,.0f}"` for an integer-valued amount. -/
def commaRev : List Char → Nat → List Char
  | [], _ => []
  | [c], _ => [c]
  | c :: rest, i =>
    if (i + 1) % 3 = 0 then c :: ',' :: commaRev rest (i + 1)
    else c :: commaRev rest (i + 1)

/-- `f"{n:,.0f}"` for a natural number. -/
def commaGroup (n : Nat) : String :=
  String.mk ((commaRev (Nat.toDigits 10 n).reverse 0).reverse)

/-- `LinkedInScraper._convert_row`. -/
def liConvertRow (row : LinkedInRow) : Option Job :=
  let company := liStr row.company
  let title := liStr row.title
  let location := (liStr row.location).getD ""
  let intervalSuffix : String :=
    if row.interval = "" then "" else String.append " (" (String.append row.interval ")")
  let salary : Option String :=
    if pyTruthyNum row.minAmount = true ∧ pyTruthyNum row.maxAmount = true then
      some (String.append row.currency (String.append (commaGroup (row.minAmount.getD 0))
        (String.append " - " (String.append row.currency
          (String.append (commaGroup (row.maxAmount.getD 0)) intervalSuffix)))))
    else if pyTruthyNum row.minAmount = true then
      some (String.append row.currency
        (String.append (commaGroup (row.minAmount.getD 0)) intervalSuffix))
    else none
  let datePosted := pyOr row.datePosted ""
  let link := (liStr row.jobUrl).getD ""
  if pyTruthy company = false ∧ pyTruthy title = false then none
  else some (makeJobRecord (pyOr company "Unknown") (pyOr title "Data Analyst")
    location "LinkedIn" datePosted salary link)

/-- The acceptance filter of `LinkedInScraper.scrape` over converted rows. -/
def liConvertRows (rows : List LinkedInRow) : List Job :=
  (rows.filterMap liConvertRow).filter (fun j => !(j.company == ""))

/-! ## Claim C2 -/

/-- A Naukri card with a title but no company element. -/
def c2card : NaukriCard := ⟨some "Analyst", none, none, none, none, none⟩

/-- A jobspy row with a title but no company cell. -/
def c2row : LinkedInRow := ⟨none, some "Analyst", none, none, none, "", "", none, none⟩

/-- C2 is false as stated: a card / row with an absent company but a present
title is *not* discarded — it yields a record with the "Unknown" placeholder
company which also survives the page-level acceptance filter. -/
theorem C2_counterexample :
    c2card.company = none ∧
    (naukriParseCard c2card).map Job.company = some "Unknown" ∧
    naukriParsePage [c2card] ≠ [] ∧
    c2row.company = none ∧
    (liConvertRow c2row).map Job.company = some "Unknown" ∧
    liConvertRows [c2row] ≠ [] := by decide

/-- C2 (amended): a parsed card / converted row is discarded iff *both* the
company and the title are absent (Python-falsy); when only the company is
absent it degrades to "Unknown", and when only the title is absent it degrades
to "Data Analyst". -/
theorem C2_amended (card : NaukriCard) (row : LinkedInRow) :
    (naukriParseCard card = none
      ↔ (pyTruthy card.title = false ∧ pyTruthy card.company = false)) ∧
    (pyTruthy card.company = false → pyTruthy card.title = true →
      (naukriParseCard card).map Job.company = some "Unknown") ∧
    (pyTruthy card.title = false → pyTruthy card.company = true →
      (naukriParseCard card).map Job.title = some "Data Analyst") ∧
    (liConvertRow row = none
      ↔ (pyTruthy (liStr row.title) = false ∧ pyTruthy (liStr row.company) = false)) ∧
    (pyTruthy (liStr row.company) = false → pyTruthy (liStr row.title) = true →
      (liConvertRow row).map Job.company = some "Unknown") ∧
    (pyTruthy (liStr row.title) = false → pyTruthy (liStr row.company) = true →
      (liConvertRow row).map Job.title = some "Data Analyst") := by
  have hcardOr : ∀ o : Option String, pyTruthy o = false → pyOr o "Unknown" = "Unknown" := by
    intro o h
    match o with
    | none => rfl
    | some s =>
      rw [pyOr]
      rw [pyTruthy] at h
      simp only [Bool.not_eq_false'] at h
      rw [if_pos (by exact eq_of_beq h)]
  have hcardOrT : ∀ o : Option String, pyTruthy o = false → pyOr o "Data Analyst" = "Data Analyst" := by
    intro o h
    match o with
    | none => rfl
    | some s =>
      rw [pyOr]
      rw [pyTruthy] at h
      simp only [Bool.not_eq_false'] at h
      rw [if_pos (by exact eq_of_beq h)]
  refine ⟨?_, ?_, ?_, ?_, ?_, ?_⟩
  · rw [naukriParseCard]
    by_cases h : pyTruthy card.title = false ∧ pyTruthy card.company = false
    · rw [if_pos h]
      exact iff_of_true rfl h
    · rw [if_neg h]
      exact iff_of_false (by simp) h
  · intro hc ht
    rw [naukriParseCard, if_neg (by rw [ht]; simp)]
    simp only [Option.map_some', makeJobRecord]
    rw [hcardOr card.company hc]
    decide
  · intro ht hc
    rw [naukriParseCard, if_neg (by rw [hc]; simp)]
    simp only [Option.map_some', makeJobRecord]
    rw [hcardOrT card.title ht]
    decide
  · rw [liConvertRow]
    by_cases h : pyTruthy (liStr row.company) = false ∧ pyTruthy (liStr row.title) = false
    · rw [if_pos h]
      exact iff_of_true rfl ⟨h.2, h.1⟩
    · rw [if_neg h]
      exact iff_of_false (by simp) (fun hcon => h ⟨hcon.2, hcon.1⟩)
  · intro hc ht
    rw [liConvertRow, if_neg (by rw [ht]; simp)]
    simp only [Option.map_some', makeJobRecord]
    rw [hcardOr (liStr row.company) hc]
    decide
  · intro ht hc
    rw [liConvertRow, if_neg (by rw [hc]; simp)]
    simp only [Option.map_some', makeJobRecord]
    rw [hcardOrT (liStr row.title) ht]
    decide

/-- Card with neither title nor company. -/
def c2wcard : NaukriCard := ⟨none, none, none, some "Delhi", none, some "today"⟩

/-- Row with an empty company cell and a present title. -/
def c2wrow : LinkedInRow :=
  ⟨some "", some "Analyst", some "Delhi", some 100, none, "USD", "yearly", none, none⟩

theorem C2_amended_witness :
    naukriParseCard c2wcard = none ∧
    (liConvertRow c2wrow).map Job.company = some "Unknown" :=
  (fun h => ⟨h.1.mpr (by decide), h.2.2.2.2.1 (by decide) (by decide)⟩)
    (C2_amended c2wcard c2wrow)

/-! ## Date normalization (`processor.py`)

`_normalize_date` works on the stripped, lowercased date text.  The regex
searches are embedded as left-to-right scanners implementing exactly the
backtracking semantics of the patterns involved. -/

/-- Numeric value of a digit run. -/
def digitsVal (l : List Char) : Nat :=
  l.foldl (fun acc c => acc * 10 + (c.toNat - Char.toNat '0')) 0

/-- Tail of the days-ago pattern after the digits: `\s*(?:day|d)s?\s*ago`. -/
def wsAgo (r : List Char) : Bool := "ago".data.isPrefixOf (r.dropWhile isPySpace)

/-- `s?\s*ago` with the backtracking of the optional `s`. -/
def sOptWsAgo (r : List Char) : Bool :=
  (match r with
   | 's' :: r2 => wsAgo r2
   | _ => false) || wsAgo r

/-- `(?:day|d)s?\s*ago` — the alternation tries `day` before `d`. -/
def dayTail (r : List Char) : Bool :=
  ("day".data.isPrefixOf r && sOptWsAgo (r.drop 3)) ||
  ("d".data.isPrefixOf r && sOptWsAgo (r.drop 1))

/-- Match of `(\d+)\s*(?:day|d)s?\s*ago` anchored at the current position. -/
def daysAgoAt (s : List Char) : Option Nat :=
  let ds := s.takeWhile Char.isDigit
  if ds = [] then none
  else if dayTail ((s.dropWhile Char.isDigit).dropWhile isPySpace) then
    some (digitsVal ds)
  else none

/-- `re.search(r"(\d+)\s*(?:day|d)s?\s*ago", raw)`: leftmost match wins. -/
def searchDaysAgo : List Char → Option Nat
  | [] => none
  | c :: rest =>
    match daysAgoAt (c :: rest) with
    | some n => some n
    | none => searchDaysAgo rest

/-- Match of `(\d+)\s*<word>` anchored at the current position
(used for the `week` / `month` patterns). -/
def numWordAt (word : List Char) (s : List Char) : Option Nat :=
  let ds := s.takeWhile Char.isDigit
  if ds = [] then none
  else if word.isPrefixOf ((s.dropWhile Char.isDigit).dropWhile isPySpace) then
    some (digitsVal ds)
  else none

/-- `re.search(r"(\d+)\s*<word>", raw)`. -/
def searchNumWord (word : List Char) : List Char → Option Nat
  | [] => none
  | c :: rest =>
    match numWordAt word (c :: rest) with
    | some n => some n
    | none => searchNumWord word rest

/-- The "today"-like keyword list of `_normalize_date`. -/
def todayKeywords : List String :=
  ["today", "just now", "just posted", "few hours", "hour ago", "hours ago", "0 day"]

/-- `any(kw in raw_date for kw in [...])`. -/
def hasAnyKeyword (raw : List Char) : Bool :=
  todayKeywords.any (fun kw => containsSub kw.data raw)

/-! ### Proleptic Gregorian calendar (Python `datetime.date`) -/

/-- Leap year test. -/
def isLeap (y : Nat) : Bool :=
  y % 4 == 0 && (y % 100 != 0 || y % 400 == 0)

/-- Month lengths of a non-leap year. -/
def monthLengths : List Nat := [31, 28, 31, 30, 31, 30, 31, 31, 30, 31, 30, 31]

/-- Length of month `m` (1-12) in year `y`. -/
def daysInMonth (y m : Nat) : Nat :=
  if m = 2 then (if isLeap y then 29 else 28) else monthLengths.getD (m - 1) 31

/-- Days before month `m` in year `y`. -/
def daysBeforeMonth (y m : Nat) : Nat :=
  (monthLengths.take (m - 1)).sum + (if 2 < m ∧ isLeap y = true then 1 else 0)

/-- `date(y, m, d).toordinal()` (day 1 is 0001-01-01). -/
def toOrdinal (y m d : Nat) : Int :=
  ((365 * (y - 1) + (y - 1) / 4 - (y - 1) / 100 + (y - 1) / 400
    + daysBeforeMonth y m + d : Nat) : Int)

/-- `date.fromordinal` — civil-from-days on the proleptic Gregorian calendar
(ordinal + 305 shifts the epoch to 0000-03-01). -/
def ordinalToYmd (ord : Int) : Nat × Nat × Nat :=
  let z : Int := ord + 305
  let era : Int := Int.fdiv z 146097
  let doe : Nat := (z - era * 146097).toNat
  let yoe : Nat := (doe - doe / 1460 + doe / 36524 - doe / 146096) / 365
  let doy : Nat := doe - (365 * yoe + yoe / 4 - yoe / 100)
  let mp : Nat := (5 * doy + 2) / 153
  let d : Nat := doy - (153 * mp + 2) / 5 + 1
  let m : Nat := if mp < 10 then mp + 3 else mp - 9
  let y : Int := (yoe : Int) + era * 400 + (if m ≤ 2 then 1 else 0)
  (y.toNat, m, d)

/-- English month abbreviations of `strftime("%b")`. -/
def monthAbbrev (m : Nat) : String :=
  (["Jan", "Feb", "Mar", "Apr", "May", "Jun", "Jul", "Aug", "Sep", "Oct",
    "Nov", "Dec"]).getD (m - 1) ""

/-- Two-digit zero padding (`%d`). -/
def pad2 (n : Nat) : String :=
  if n < 10 then String.append "0" (toString n) else toString n

/-- `strftime("%d %b %Y")` of the date with the given ordinal. -/
def formatDate (ord : Int) : String :=
  let t := ordinalToYmd ord
  String.append (pad2 t.2.2) (String.append " " (String.append (monthAbbrev t.2.1)
    (String.append " " (toString t.1))))

/-! ### `datetime.strptime` for the formats tried by `_try_parse_date`

CPython compiles each directive to a regex fragment (case-insensitive
matching, `\s+` for whitespace in the format) and then validates the values
through the `datetime` constructor.  Directives are matched with the exact
alternation priority of `_strptime.TimeRE`. -/

/-- Digit value of a character. -/
def dval (c : Char) : Nat := c.toNat - Char.toNat '0'

/-- `%Y` — exactly four digits. -/
def matchY : List Char → Option (Nat × List Char)
  | c1 :: c2 :: c3 :: c4 :: rest =>
    if c1.isDigit && c2.isDigit && c3.isDigit && c4.isDigit then
      some (digitsVal [c1, c2, c3, c4], rest)
    else none
  | _ => none

/-- `%m` — `(1[0-2]|0[1-9]|[1-9])`. -/
def matchMonthNum : List Char → Option (Nat × List Char)
  | [] => none
  | [c1] => if c1.isDigit ∧ 1 ≤ dval c1 then some (dval c1, []) else none
  | c1 :: c2 :: rest =>
    if c1 = '1' ∧ c2.isDigit ∧ dval c2 ≤ 2 then some (10 + dval c2, rest)
    else if c1 = '0' ∧ c2.isDigit ∧ 1 ≤ dval c2 then some (dval c2, rest)
    else if c1.isDigit ∧ 1 ≤ dval c1 then some (dval c1, c2 :: rest)
    else none

/-- `%d` — `(3[01]|[12]\d|0[1-9]|[1-9])`. -/
def matchDayNum : List Char → Option (Nat × List Char)
  | [] => none
  | [c1] => if c1.isDigit ∧ 1 ≤ dval c1 then some (dval c1, []) else none
  | c1 :: c2 :: rest =>
    if c1 = '3' ∧ (c2 = '0' ∨ c2 = '1') then some (30 + dval c2, rest)
    else if (c1 = '1' ∨ c1 = '2') ∧ c2.isDigit then some (10 * dval c1 + dval c2, rest)
    else if c1 = '0' ∧ c2.isDigit ∧ 1 ≤ dval c2 then some (dval c2, rest)
    else if c1.isDigit ∧ 1 ≤ dval c1 then some (dval c1, c2 :: rest)
    else none

/-- `%H` — `(2[0-3]|[0-1]\d|\d)`. -/
def matchHourNum : List Char → Option (Nat × List Char)
  | [] => none
  | [c1] => if c1.isDigit then some (dval c1, []) else none
  | c1 :: c2 :: rest =>
    if c1 = '2' ∧ c2.isDigit ∧ dval c2 ≤ 3 then some (20 + dval c2, rest)
    else if (c1 = '0' ∨ c1 = '1') ∧ c2.isDigit then some (10 * dval c1 + dval c2, rest)
    else if c1.isDigit then some (dval c1, c2 :: rest)
    else none

/-- `%M` — `([0-5]\d|\d)`. -/
def matchMinuteNum : List Char → Option (Nat × List Char)
  | [] => none
  | [c1] => if c1.isDigit then some (dval c1, []) else none
  | c1 :: c2 :: rest =>
    if c1.isDigit ∧ dval c1 ≤ 5 ∧ c2.isDigit then some (10 * dval c1 + dval c2, rest)
    else if c1.isDigit then some (dval c1, c2 :: rest)
    else none

/-- `%S` — `(6[0-1]|[0-5]\d|\d)`. -/
def matchSecondNum : List Char → Option (Nat × List Char)
  | [] => none
  | [c1] => if c1.isDigit then some (dval c1, []) else none
  | c1 :: c2 :: rest =>
    if c1 = '6' ∧ (c2 = '0' ∨ c2 = '1') then some (60 + dval c2, rest)
    else if c1.isDigit ∧ dval c1 ≤ 5 ∧ c2.isDigit then some (10 * dval c1 + dval c2, rest)
    else if c1.isDigit then some (dval c1, c2 :: rest)
    else none

/-- `%f` — `\d{1,6}`, greedy; the value is the microsecond obtained by
zero-padding the digit run to six places, as `_strptime` does. -/
def matchFrac (s : List Char) : Option (Nat × List Char) :=
  let ds := (s.takeWhile Char.isDigit).take 6
  if ds = [] then none
  else some (digitsVal ds * 10 ^ (6 - ds.length), s.drop ds.length)

/-- First name of the list that is a prefix (the input is lowercased; the
names are stored lowercased, mirroring the IGNORECASE matching). -/
def matchFromList : List (String × Nat) → List Char → Option (Nat × List Char)
  | [], _ => none
  | (nm, v) :: rest, s =>
    if nm.data.isPrefixOf s then some (v, s.drop nm.length) else matchFromList rest s

/-- `%b` month abbreviations (all of length 3). -/
def monthAbbrevPairs : List (String × Nat) :=
  [("jan", 1), ("feb", 2), ("mar", 3), ("apr", 4), ("may", 5), ("jun", 6),
   ("jul", 7), ("aug", 8), ("sep", 9), ("oct", 10), ("nov", 11), ("dec", 12)]

/-- `%B` full month names, sorted by length descending as `TimeRE` does. -/
def monthFullPairs : List (String × Nat) :=
  [("september", 9), ("february", 2), ("november", 11), ("december", 12),
   ("january", 1), ("october", 10), ("august", 8), ("march", 3), ("april", 4),
   ("june", 6), ("july", 7), ("may", 5)]

/-- `\s+` (whitespace in the format string). -/
def matchWs (s : List Char) : Option (List Char) :=
  match s with
  | c :: rest => if isPySpace c then some (rest.dropWhile isPySpace) else none
  | [] => none

/-- One directive or literal of a strptime format string. -/
inductive FmtTok where
  | year
  | monthNum
  | dayNum
  | hourNum
  | minuteNum
  | secondNum
  | frac
  | monthAbbr
  | monthFull
  | ws
  | lit (c : Char)
deriving DecidableEq

/-- The fields `_strptime` extracts and hands to the `datetime` constructor;
the time fields default to midnight when their directives are absent. -/
structure ParsedDT where
  year : Nat
  month : Nat
  day : Nat
  hour : Nat
  minute : Nat
  second : Nat
  usec : Nat
deriving DecidableEq

/-- Run a token list over the input, collecting every extracted field. -/
def runToks : List FmtTok → List Char → Option Nat → Option Nat → Option Nat →
    Nat → Nat → Nat → Nat → Option ParsedDT
  | [], s, oy, om, od, hh, mi, ss, us =>
    if s = [] then
      match oy, om, od with
      | some y, some m, some d => some ⟨y, m, d, hh, mi, ss, us⟩
      | _, _, _ => none
    else none
  | tok :: toks, s, oy, om, od, hh, mi, ss, us =>
    match tok with
    | .year => match matchY s with
      | some (v, r) => runToks toks r (some v) om od hh mi ss us
      | none => none
    | .monthNum => match matchMonthNum s with
      | some (v, r) => runToks toks r oy (some v) od hh mi ss us
      | none => none
    | .dayNum => match matchDayNum s with
      | some (v, r) => runToks toks r oy om (some v) hh mi ss us
      | none => none
    | .hourNum => match matchHourNum s with
      | some (v, r) => runToks toks r oy om od v mi ss us
      | none => none
    | .minuteNum => match matchMinuteNum s with
      | some (v, r) => runToks toks r oy om od hh v ss us
      | none => none
    | .secondNum => match matchSecondNum s with
      | some (v, r) => runToks toks r oy om od hh mi v us
      | none => none
    | .frac => match matchFrac s with
      | some (v, r) => runToks toks r oy om od hh mi ss v
      | none => none
    | .monthAbbr => match matchFromList monthAbbrevPairs s with
      | some (v, r) => runToks toks r oy (some v) od hh mi ss us
      | none => none
    | .monthFull => match matchFromList monthFullPairs s with
      | some (v, r) => runToks toks r oy (some v) od hh mi ss us
      | none => none
    | .ws => match matchWs s with
      | some r => runToks toks r oy om od hh mi ss us
      | none => none
    | .lit c => match s with
      | c2 :: r =>
        if c2.toLower = c.toLower then runToks toks r oy om od hh mi ss us else none
      | [] => none

/-- One format: token match over the whole string, then the `datetime`
constructor validation — year 1-9999, month 1-12, day within the month, hour
0-23, minute 0-59, second 0-59 (so the leap seconds 60-61 admitted by the
`%S` pattern raise and the format fails), microsecond 0-999999.  `ValueError`
is caught by `_try_parse_date`, which moves on to the next format. -/
def tryFormat (toks : List FmtTok) (s : List Char) : Option (Nat × Nat × Nat) :=
  match runToks toks s none none none 0 0 0 0 with
  | some p =>
    if 1 ≤ p.year ∧ p.year ≤ 9999 ∧ 1 ≤ p.month ∧ p.month ≤ 12 ∧ 1 ≤ p.day ∧
        p.day ≤ daysInMonth p.year p.month ∧ p.hour ≤ 23 ∧ p.minute ≤ 59 ∧
        p.second ≤ 59 ∧ p.usec ≤ 999999 then
      some (p.year, p.month, p.day)
    else none
  | none => none

/-- The twelve formats of `_try_parse_date`, in order. -/
def fmtList : List (List FmtTok) :=
  [[.year, .lit '-', .monthNum, .lit '-', .dayNum],
   [.dayNum, .lit '-', .monthNum, .lit '-', .year],
   [.dayNum, .ws, .monthAbbr, .ws, .year],
   [.dayNum, .ws, .monthFull, .ws, .year],
   [.monthAbbr, .ws, .dayNum, .lit ',', .ws, .year],
   [.monthFull, .ws, .dayNum, .lit ',', .ws, .year],
   [.dayNum, .lit '/', .monthNum, .lit '/', .year],
   [.monthNum, .lit '/', .dayNum, .lit '/', .year],
   [.year, .lit '-', .monthNum, .lit '-', .dayNum, .lit 'T',
    .hourNum, .lit ':', .minuteNum, .lit ':', .secondNum],
   [.year, .lit '-', .monthNum, .lit '-', .dayNum, .lit 'T',
    .hourNum, .lit ':', .minuteNum, .lit ':', .secondNum, .lit '.', .frac],
   [.year, .lit '-', .monthNum, .lit '-', .dayNum, .lit 'T',
    .hourNum, .lit ':', .minuteNum, .lit ':', .secondNum, .lit 'Z'],
   [.year, .lit '-', .monthNum, .lit '-', .dayNum, .ws,
    .hourNum, .lit ':', .minuteNum, .lit ':', .secondNum]]

/-- `re.sub(r"^(posted\s*on\s*|posted\s*)", "", text)` (anchored, so at most
one replacement; maximal `\s*` munching is exact here since `o` and `n` are
not whitespace). -/
def stripPosted (s : List Char) : List Char :=
  if "posted".data.isPrefixOf s then
    let r := (s.drop 6).dropWhile isPySpace
    if "on".data.isPrefixOf r then (r.drop 2).dropWhile isPySpace
    else r
  else s

/-- First format that parses. -/
def firstFormat : List (List FmtTok) → List Char → Option (Nat × Nat × Nat)
  | [], _ => none
  | f :: fs, t =>
    match tryFormat f t with
    | some v => some v
    | none => firstFormat fs t

/-- `_try_parse_date`. -/
def tryParseDate (s : List Char) : Option (Nat × Nat × Nat) :=
  let t := stripPosted (pyStripL s)
  firstFormat fmtList (pyStripL t)

/-- The days-ago cascade of `_normalize_date` (branches 1-6); the result can
be negative via branch 6 on a future absolute date. -/
def daysAgoOf (today : Int) (raw : List Char) : Option Int :=
  match searchDaysAgo raw with
  | some n => some (n : Int)
  | none =>
    if hasAnyKeyword raw = true then some 0
    else if containsSub "yesterday".data raw = true then some 1
    else
      match searchNumWord "week".data raw with
      | some w => some ((w * 7 : Nat) : Int)
      | none =>
        match searchNumWord "month".data raw with
        | some mo => some ((mo * 30 : Nat) : Int)
        | none =>
          match tryParseDate raw with
          | some t => some (today - toOrdinal t.1 t.2.1 t.2.2)
          | none => none

/-- `_categorize_days`. -/
def categorizeDays (d : Int) : String :=
  if d = 0 then "Posted Today"
  else if d = 1 then "Posted Yesterday"
  else if d = 2 then "Posted 2 Days Ago"
  else if 3 ≤ d ∧ d ≤ 7 then "Posted 3-7 Days Ago"
  else "Posted More Than 1 Week Ago"

/-- `_normalize_date`; `today` is the ordinal of `TODAY`. -/
def normalizeDate (today : Int) (j : Job) : Job :=
  if (pyStripL j.datePosted.data).map Char.toLower = [] then
    { j with datePosted := "", postingCategory := "Unknown" }
  else
    match daysAgoOf today ((pyStripL j.datePosted.data).map Char.toLower) with
    | some d =>
      { j with datePosted := formatDate (today - d), postingCategory := categorizeDays d }
    | none => { j with postingCategory := "Unknown" }

/-! ## Claim C6 -/

/-- C6: whenever the raw date text yields a days-ago value `d`, the normalizer
sets the date to `today - d` formatted as "dd Mon yyyy" and the posting
category to `_categorize_days d`, which follows the bucket table on its whole
domain (0, 1, 2, 3-7, above 7) and in particular on 0, 1, 2, 5, 10. -/
theorem C6_normalize_date (today : Int) (j : Job) (d : Int)
    (hda : daysAgoOf today ((pyStripL j.datePosted.data).map Char.toLower) = some d) :
    (normalizeDate today j).datePosted = formatDate (today - d) ∧
    (normalizeDate today j).postingCategory = categorizeDays d ∧
    (d = 0 → categorizeDays d = "Posted Today") ∧
    (d = 1 → categorizeDays d = "Posted Yesterday") ∧
    (d = 2 → categorizeDays d = "Posted 2 Days Ago") ∧
    (3 ≤ d → d ≤ 7 → categorizeDays d = "Posted 3-7 Days Ago") ∧
    (7 < d → categorizeDays d = "Posted More Than 1 Week Ago") ∧
    categorizeDays 0 = "Posted Today" ∧
    categorizeDays 1 = "Posted Yesterday" ∧
    categorizeDays 2 = "Posted 2 Days Ago" ∧
    categorizeDays 5 = "Posted 3-7 Days Ago" ∧
    categorizeDays 10 = "Posted More Than 1 Week Ago" := by
  have hne : (pyStripL j.datePosted.data).map Char.toLower ≠ [] := by
    intro h
    rw [h] at hda
    have h0 : daysAgoOf today ([] : List Char) = none := rfl
    rw [h0] at hda
    exact Option.noConfusion hda
  have hnorm : normalizeDate today j
      = { j with datePosted := formatDate (today - d),
                 postingCategory := categorizeDays d } := by
    rw [normalizeDate, if_neg hne, hda]
  refine ⟨by rw [hnorm], by rw [hnorm], ?_, ?_, ?_, ?_, ?_, by decide, by decide,
    by decide, by decide, by decide⟩
  · intro h
    subst h
    decide
  · intro h
    subst h
    decide
  · intro h
    subst h
    decide
  · intro h3 h7
    rw [categorizeDays, if_neg (by omega), if_neg (by omega), if_neg (by omega),
      if_pos ⟨h3, h7⟩]
  · intro h7
    rw [categorizeDays, if_neg (by omega), if_neg (by omega), if_neg (by omega),
      if_neg (by omega)]

/-- Witness record: scraped date text "5 days ago". -/
def c6job : Job := ⟨"Acme", "Analyst", "Delhi", "Naukri", "5 days ago", "", "NULL", ""⟩

theorem C6_normalize_date_witness :
    (normalizeDate 739252 c6job).datePosted = formatDate (739252 - 5) ∧
    (normalizeDate 739252 c6job).postingCategory = categorizeDays 5 :=
  (fun h => ⟨h.1, h.2.1⟩) (C6_normalize_date 739252 c6job 5 (by decide))

/-! ## Residual witnesses for hypothesis-bearing claims -/

theorem C3_deduplicate_idempotent_witness :
    deduplicate (deduplicate [exLinkedIn, exNaukri]) = deduplicate [exLinkedIn, exNaukri] :=
  C3_deduplicate_idempotent [exLinkedIn, exNaukri]

theorem C7_normalize_salary_witness :
    (normalizeSalary exNaukri).salaryPackage ≠ "" :=
  (C7_normalize_salary exNaukri).2.2

theorem C8_validate_witness :
    isValid ⟨"Acme", "Analyst", "", "Naukri", "", "", "NULL", ""⟩ = true :=
  (C8_validate exNaukri).2.2.2
